import Mathlib

/-!
Shallow embedding of `tools/effectiveT3/effectiveT3.py`, a wrapper script that
validates command-line arguments, runs the external Effective T3 classifier,
and rewrites its semicolon-delimited output as a tab-delimited table.

Python strings are modelled as `List Char`; a file handle being iterated is a
`List (List Char)` of its lines.  Writing to the output handle is modelled by
accumulating the written lines in order.
-/

/-- Number of occurrences of the character `';'`, modelling `line.count(";")`. -/
def countSemis (l : List Char) : Nat := l.count ';'

/-- Whitespace characters recognised by Python `str.strip()` and by the
leading/trailing whitespace tolerance of `float()`. -/
def isPyWhite (c : Char) : Bool :=
  c == ' ' || c == '\t' || c == '\n' || c == '\r' || c == '\x0b' || c == '\x0c'

/-- Python `s.strip()`: drop whitespace from both ends. -/
def pyStrip (l : List Char) : List Char :=
  ((l.dropWhile isPyWhite).reverse.dropWhile isPyWhite).reverse

/-- Python `s.rstrip("\r\n")`: drop trailing carriage returns and newlines. -/
def rstripCRLF (l : List Char) : List Char :=
  (l.reverse.dropWhile (fun c => c == '\r' || c == '\n')).reverse

/-- Python `s.lower()` (ASCII case folding suffices for this script). -/
def lowerList (l : List Char) : List Char := l.map Char.toLower

/-- Split a list at the LAST occurrence of `sep`: `some (a, b)` with
`l = a ++ sep :: b` and `sep` not occurring in `b`; `none` when `sep` is
absent.  Building block for Python `rsplit`. -/
def splitLast (sep : Char) : List Char → Option (List Char × List Char)
  | [] => none
  | c :: cs =>
    match splitLast sep cs with
    | some (a, b) => some (c :: a, b)
    | none => if c = sep then some ([], cs) else none

/-- Python `s.rsplit(sep, 2)` in the case the script relies on (at least two
separators present, unpacked into exactly three parts): split at the last two
occurrences of `sep`.  `none` models the unpack `ValueError` when fewer than
two separators are present. -/
def rsplit2 (sep : Char) (l : List Char) : Option (List Char × List Char × List Char) :=
  match splitLast sep l with
  | none => none
  | some (a1, e) =>
    match splitLast sep a1 with
    | none => none
    | some (a2, s) => some (a2, s, e)

/-- Split at the FIRST occurrence of the (nonempty) substring `pat`, dropping
the pattern: models `s.split(pat, 1)` unpacked into two parts, with `none` for
the unpack `ValueError` when `pat` does not occur. -/
def splitFirstSub (pat : List Char) : List Char → Option (List Char × List Char)
  | [] => none
  | c :: rest =>
    if pat.isPrefixOf (c :: rest) then some ([], (c :: rest).drop pat.length)
    else
      match splitFirstSub pat rest with
      | some (a, b) => some (c :: a, b)
      | none => none

/-- Python `pat in s` for a nonempty pattern. -/
def containsSub (pat l : List Char) : Bool := (splitFirstSub pat l).isSome

/-- The id/description split inside `clean_tabular` (source lines 54–59): if
the combined field contains no `"; "` and ends with `";"`, the description is
empty and the trailing `";"` is stripped from the id; otherwise
`id_descr.split("; ", 1)`, whose unpack `ValueError` (separator absent) is
modelled as `none`. -/
def split_id_descr (id_descr : List Char) : Option (List Char × List Char) :=
  if !containsSub "; ".toList id_descr && id_descr.getLast? == some ';' then
    some (id_descr.dropLast, [])
  else splitFirstSub "; ".toList id_descr

/-- Field extraction for one raw line (source lines 52–59): strip the line
terminator, split from the right on the last two semicolons into
(id+description, score, classification), then split id from description.
`none` models the `ValueError` caught at line 60 (`sys.exit` with the line
echoed). -/
def parseFields (line : List Char) :
    Option (List Char × List Char × List Char × List Char) :=
  match rsplit2 ';' (rstripCRLF line) with
  | none => none
  | some (id_descr, score, effective) =>
    match split_id_descr id_descr with
    | none => none
    | some (id, descr) => some (id, descr, score, effective)

/-- Digit run of a Python float literal's mantissa: `some (digits, rest)` with
at least one digit, allowing `d+`, `d+.d*`, `.d+` and `d*.d+` forms. -/
def parseMantissa (l : List Char) : Option (List Char × List Char) :=
  let d1 := l.takeWhile Char.isDigit
  let r1 := l.dropWhile Char.isDigit
  match r1 with
  | '.' :: r2 =>
    let d2 := r2.takeWhile Char.isDigit
    let r3 := r2.dropWhile Char.isDigit
    if d1.isEmpty && d2.isEmpty then none else some (d1 ++ d2, r3)
  | _ => if d1.isEmpty then none else some (d1, r1)

/-- Accepts the tail after the mantissa: empty, or an exponent
`e`/`E` `[+|-]` `digits` consuming the entire remainder. -/
def expoTailOk (l : List Char) : Bool :=
  match l with
  | [] => true
  | c :: r =>
    if c == 'e' || c == 'E' then
      let r2 := match r with
        | s :: t => if s == '+' || s == '-' then t else s :: t
        | [] => []
      !(r2.takeWhile Char.isDigit).isEmpty && (r2.dropWhile Char.isDigit).isEmpty
    else false

/-- Models the test `float(score) < 0` (source line 65): `none` when `float()`
raises `ValueError`, otherwise `some b` with `b` true iff the value is
negative.  Decimal literals `[ws][sign]digits[.digits][(e|E)[sign]digits][ws]`
are modelled; an exponent cannot change the sign or the zeroness of the
mantissa, so negativity is sign `'-'` together with a nonzero mantissa digit.
(The `inf`/`nan` literals and sub-double-precision underflow are outside the
model; the classifier emits plain decimal scores.) -/
def pyFloatIsNeg (s : List Char) : Option Bool :=
  let t := pyStrip s
  let signAndRest : Bool × List Char :=
    match t with
    | '-' :: r => (true, r)
    | '+' :: r => (false, r)
    | _ => (false, t)
  match parseMantissa signAndRest.2 with
  | none => none
  | some (digits, rest) =>
    if expoTailOk rest then some (signAndRest.1 && digits.any (fun c => c != '0'))
    else none

/-- Skip condition of the normalizer loop (source lines 45–47): empty line,
comment line, or the tool's own column-header line. -/
def lineIsSkipped (line : List Char) : Bool :=
  line == [] || "#".toList.isPrefixOf line ||
    "Id; Description; Score;".toList.isPrefixOf line

/-- One written output row (source lines 62–63): the four fields
whitespace-trimmed, tab-joined, newline-terminated. -/
def rowOf (id descr score effective : List Char) : List Char :=
  pyStrip id ++ '\t' :: (pyStrip descr ++ '\t' ::
    (pyStrip score ++ '\t' :: (pyStrip effective ++ ['\n'])))

/-- The three ways `clean_tabular` can abort, each carrying the text it
reports: the `assert line.count(";") >= 3` failure echoing the line (line 48),
the `sys.exit("Problem parsing line:...")` echoing the line (line 61), and the
uncaught `ValueError` from `float(score)` (line 65). -/
inductive CleanError where
  | assertFail (line : List Char)
  | parseExit (line : List Char)
  | floatError (score : List Char)
deriving DecidableEq, Repr

instance {ε α : Type} [DecidableEq ε] [DecidableEq α] : DecidableEq (Except ε α) := fun a b =>
  match a, b with
  | .ok x, .ok y => if h : x = y then .isTrue (by rw [h]) else .isFalse (by simp [h])
  | .error x, .error y => if h : x = y then .isTrue (by rw [h]) else .isFalse (by simp [h])
  | .ok _, .error _ => .isFalse (by simp)
  | .error _, .ok _ => .isFalse (by simp)

/-- Result of the normalizer: the rows written to the output handle (in
order), and either the returned `(count, positive, errors)` triple or the
abort that ended the loop. -/
structure CleanResult where
  rows : List (List Char)
  outcome : Except CleanError (Nat × Nat × Nat)
deriving DecidableEq, Repr

/-- The loop of `clean_tabular` (source lines 44–68), with the running
counters and the rows written so far as explicit state. -/
def cleanLoop : List (List Char) → Nat → Nat → Nat → List (List Char) → CleanResult
  | [], count, positive, errors, rows => ⟨rows, .ok (count, positive, errors)⟩
  | line :: ls, count, positive, errors, rows =>
    if lineIsSkipped line then cleanLoop ls count positive errors rows
    else if countSemis line < 3 then ⟨rows, .error (.assertFail line)⟩
    else
      match parseFields line with
      | none => ⟨rows, .error (.parseExit line)⟩
      | some (id, descr, score, effective) =>
        let row := rowOf id descr score effective
        match pyFloatIsNeg score with
        | none => ⟨rows ++ [row], .error (.floatError score)⟩
        | some neg =>
          cleanLoop ls (count + 1)
            (if lowerList effective = "true".toList then positive + 1 else positive)
            (if neg then errors + 1 else errors)
            (rows ++ [row])

/-- `clean_tabular(raw_handle, out_handle)` (source lines 39–69). -/
def clean_tabular (lines : List (List Char)) : CleanResult :=
  cleanLoop lines 0 0 0 []

/-- Abstraction of the filesystem checks the script performs
(`os.path.isfile`, `os.path.isdir`). -/
structure Env where
  isFile : List Char → Bool
  isDir : List Char → Bool

/-- POSIX `os.path.join` for the relative second components used by the
script. -/
def ospath_join (a b : List Char) : List Char :=
  if a = [] then b
  else if a.getLast? = some '/' then a ++ b
  else a ++ '/' :: b

/-- The fixed version string printed for `-v` / `--version` (source line 24). -/
def versionString : List Char := "Wrapper v0.0.16, TTSS_GUI-1.0.1.jar".toList

/-- Source line 22: `"-v" in sys.argv or "--version" in sys.argv`. -/
def hasVersionFlag (argv : List (List Char)) : Bool :=
  argv.contains "-v".toList || argv.contains "--version".toList

/-- Source lines 35–36: the threshold passes validation when it is
`"selective"`, `"sensitive"`, or starts with `"cutoff="`. -/
def threshold_ok (t : List Char) : Bool :=
  t == "selective".toList || t == "sensitive".toList ||
    "cutoff=".toList.isPrefixOf t

/-- Where the script's pre-subprocess phase ends: each `sys.exit` site before
the external tool would run, or `runTool` when every check passed and the
subprocess is invoked (source lines 22–37 and 89–104, in source order). -/
inductive PreOutcome where
  | versionExit
  | usageExit
  | fastaMissing (p : List Char)
  | badThreshold (t : List Char)
  | dirMissing (d : List Char)
  | jarMissing (j : List Char)
  | moduleMissing (m : List Char)
  | modelMissing (m : List Char)
  | runTool (model threshold fasta tabular : List Char)
deriving DecidableEq, Repr

/-- The validation sequence of the script before the external tool is
invoked, parameterised by the install directory (`EFFECTIVET3` or its
default) and the filesystem oracle.  Checks appear in the source's order:
version flag, arity, input FASTA, threshold, install dir, main JAR, module
dir, model file. -/
def mainPre (t3dir : List Char) (env : Env) (argv : List (List Char)) : PreOutcome :=
  if hasVersionFlag argv then .versionExit
  else if argv.length ≠ 5 then .usageExit
  else
    match argv with
    | [_, model, threshold, fasta_file, _tabular_file] =>
      if !env.isFile fasta_file then .fastaMissing fasta_file
      else if !threshold_ok threshold then .badThreshold threshold
      else if !env.isDir t3dir then .dirMissing t3dir
      else if !env.isFile (ospath_join t3dir "TTSS_GUI-1.0.1.jar".toList) then
        .jarMissing (ospath_join t3dir "TTSS_GUI-1.0.1.jar".toList)
      else if !env.isDir (ospath_join t3dir "module".toList) then
        .moduleMissing (ospath_join t3dir "module".toList)
      else if !env.isFile (ospath_join (ospath_join t3dir "module".toList) model) then
        .modelMissing (ospath_join (ospath_join t3dir "module".toList) model)
      else .runTool model threshold fasta_file _tabular_file
    | _ => .usageExit

/-- Process exit status of the pre-subprocess phase: `some 0` for the version
short-circuit (`sys.exit(0)`), `some 1` for every `sys.exit(message)`, and
`none` when the phase falls through to invoking the external tool. -/
def preExitCode : PreOutcome → Option Nat
  | .versionExit => some 0
  | .runTool _ _ _ _ => none
  | _ => some 1

/-- What the pre-subprocess phase prints to stdout: only the version
short-circuit prints (the fixed version string). -/
def preStdout : PreOutcome → Option (List Char)
  | .versionExit => some versionString
  | _ => none

/-- The fixed header row written before normalization (source line 132). -/
def headerRow : List Char := "#ID\tDescription\tScore\tEffective\n".toList

/-- How the run ends after the raw output exists (source lines 131–148):
normal termination printing a summary, the `sys.exit("All your sequences gave
an error code")` business rule, or an abort inside `clean_tabular`. -/
inductive RunExit where
  | success
  | allErrors
  | cleanFailed (err : CleanError)
deriving DecidableEq, Repr

/-- Final state of the post-subprocess phase: the lines written to the output
tabular file (header first), and how the process exits. -/
structure RunResult where
  fileLines : List (List Char)
  exit : RunExit

/-- Post-subprocess phase (source lines 131–148): write the header, run
`clean_tabular` over the raw lines, then apply the all-errors business rule
`if count and count == errors: sys.exit(...)`.  An abort inside
`clean_tabular` leaves the rows written so far in the file. -/
def processRaw (lines : List (List Char)) : RunResult :=
  let r := clean_tabular lines
  match r.outcome with
  | .ok (count, _positive, errors) =>
    ⟨headerRow :: r.rows, if count ≠ 0 ∧ count = errors then .allErrors else .success⟩
  | .error err => ⟨headerRow :: r.rows, .cleanFailed err⟩

/-- Exit status of the whole run as decided by the post-subprocess phase:
`sys.exit(message)` and an uncaught exception both terminate with a nonzero
status (1). -/
def runExitCode : RunExit → Nat
  | .success => 0
  | .allErrors => 1
  | .cleanFailed _ => 1

/-- A raw line the normalizer processes without aborting: at least three
semicolons, a successful field split, and a score `float()` accepts. -/
def wellFormed (l : List Char) : Bool :=
  decide (3 ≤ countSemis l) &&
    match parseFields l with
    | some (_, _, score, _) => (pyFloatIsNeg score).isSome
    | none => false

/-- The row the normalizer writes for a (successfully parsed) raw line. -/
def rowFor (l : List Char) : List Char :=
  match parseFields l with
  | some (id, descr, score, effective) => rowOf id descr score effective
  | none => []

/-- Does a raw line's classification field (the component after the last
semicolon, as the loop variable `effective` holds it) satisfy the
`effective.lower() == "true"` test of source line 67? -/
def linePositive (l : List Char) : Bool :=
  match parseFields l with
  | some (_, _, _, effective) => lowerList effective == "true".toList
  | none => false

/-- Does a raw line's score field satisfy `float(score) < 0` (line 65)? -/
def lineNegScore (l : List Char) : Bool :=
  match parseFields l with
  | some (_, _, score, _) => pyFloatIsNeg score == some true
  | none => false

/-- The lines the skip condition does not discard. -/
def keptOf (lines : List (List Char)) : List (List Char) :=
  lines.filter (fun l => !lineIsSkipped l)

/-- The non-skipped lines that increment `positive`. -/
def positivesOf (lines : List (List Char)) : List (List Char) :=
  lines.filter (fun l => !lineIsSkipped l && linePositive l)

/-- The non-skipped lines that increment `errors`. -/
def negativesOf (lines : List (List Char)) : List (List Char) :=
  lines.filter (fun l => !lineIsSkipped l && lineNegScore l)

theorem splitLast_none (sep : Char) :
    ∀ l : List Char, splitLast sep l = none → l.count sep = 0 := by
  intro l
  induction l with
  | nil => intro _; simp
  | cons c cs ih =>
    intro h
    rw [splitLast] at h
    cases hcs : splitLast sep cs with
    | some ab => rw [hcs] at h; simp at h
    | none =>
      rw [hcs] at h
      by_cases hc : c = sep
      · simp [hc] at h
      · simp [List.count_cons, ih hcs, hc]

theorem splitLast_sound (sep : Char) :
    ∀ l a b, splitLast sep l = some (a, b) → l = a ++ sep :: b ∧ b.count sep = 0 := by
  intro l
  induction l with
  | nil => intro a b h; simp [splitLast] at h
  | cons c cs ih =>
    intro a b h
    rw [splitLast] at h
    cases hcs : splitLast sep cs with
    | some ab =>
      rw [hcs] at h
      obtain ⟨a', b'⟩ := ab
      simp at h
      obtain ⟨ha, hb⟩ := h
      obtain ⟨hdec, hcnt⟩ := ih a' b' hcs
      subst ha hb
      exact ⟨by rw [hdec]; simp, hcnt⟩
    | none =>
      rw [hcs] at h
      by_cases hc : c = sep
      · simp [hc] at h
        obtain ⟨ha, hb⟩ := h
        subst ha hb
        exact ⟨by simp [hc], splitLast_none sep _ hcs⟩
      · simp [hc] at h

theorem splitLast_isSome (sep : Char) (l : List Char) (h : 0 < l.count sep) :
    ∃ a b, splitLast sep l = some (a, b) := by
  cases hs : splitLast sep l with
  | none => exact absurd (splitLast_none sep l hs) (by omega)
  | some ab => exact ⟨ab.1, ab.2, rfl⟩

theorem rstripCRLF_count (l : List Char) : (rstripCRLF l).count ';' = l.count ';' := by
  unfold rstripCRLF
  rw [List.count_reverse]
  conv_rhs => rw [← List.count_reverse,
    ← List.takeWhile_append_dropWhile (p := fun c => c == '\r' || c == '\n') (l := l.reverse)]
  rw [List.count_append]
  have hz : (l.reverse.takeWhile (fun c => c == '\r' || c == '\n')).count ';' = 0 := by
    rw [List.count_eq_zero]
    intro hmem
    have hp := List.mem_takeWhile_imp hmem
    simp at hp
  omega

theorem cleanLoop_clean :
    ∀ (lines : List (List Char)),
      (∀ l ∈ lines, lineIsSkipped l = true ∨ wellFormed l = true) →
      ∀ count positive errors rows,
        cleanLoop lines count positive errors rows =
          ⟨rows ++ (keptOf lines).map rowFor,
           .ok (count + (keptOf lines).length,
                positive + (positivesOf lines).length,
                errors + (negativesOf lines).length)⟩ := by
  intro lines
  induction lines with
  | nil =>
    intro _ c p e rows
    simp [cleanLoop, keptOf, positivesOf, negativesOf]
  | cons l ls ih =>
    intro h c p e rows
    have hls : ∀ x ∈ ls, lineIsSkipped x = true ∨ wellFormed x = true :=
      fun x hx => h x (List.mem_cons_of_mem l hx)
    cases hskip : lineIsSkipped l with
    | true =>
      have hk : keptOf (l :: ls) = keptOf ls := by simp [keptOf, hskip]
      have hpos : positivesOf (l :: ls) = positivesOf ls := by simp [positivesOf, hskip]
      have hneg : negativesOf (l :: ls) = negativesOf ls := by simp [negativesOf, hskip]
      rw [cleanLoop, if_pos hskip, hk, hpos, hneg, ih hls]
    | false =>
      have hwf : wellFormed l = true := by
        rcases h l (List.mem_cons_self l ls) with h' | h'
        · rw [hskip] at h'; exact absurd h' (by simp)
        · exact h'
      rw [wellFormed, Bool.and_eq_true] at hwf
      obtain ⟨h3b, hrest⟩ := hwf
      have h3 : 3 ≤ countSemis l := of_decide_eq_true h3b
      cases hp : parseFields l with
      | none => rw [hp] at hrest; simp at hrest
      | some quad =>
        obtain ⟨id, descr, score, eff⟩ := quad
        rw [hp] at hrest
        dsimp only at hrest
        cases hf : pyFloatIsNeg score with
        | none => rw [hf] at hrest; simp at hrest
        | some neg =>
          have hk : keptOf (l :: ls) = l :: keptOf ls := by simp [keptOf, hskip]
          have hrf : rowFor l = rowOf id descr score eff := by
            unfold rowFor; rw [hp]
          have hlp : linePositive l = (lowerList eff == "true".toList) := by
            unfold linePositive; rw [hp]
          have hln : lineNegScore l = (pyFloatIsNeg score == some true) := by
            unfold lineNegScore; rw [hp]
          have hplen : (positivesOf (l :: ls)).length =
              (if lowerList eff = "true".toList then 1 else 0) + (positivesOf ls).length := by
            unfold positivesOf
            rw [List.filter_cons]
            by_cases hq : lowerList eff = "true".toList
            · rw [if_pos (by simp [hskip, hlp]; exact hq), if_pos hq]
              simp [Nat.add_comm]
            · rw [if_neg (by simp [hskip, hlp]; exact fun hc => hq hc), if_neg hq]
              simp
          have hnlen : (negativesOf (l :: ls)).length =
              (if neg = true then 1 else 0) + (negativesOf ls).length := by
            unfold negativesOf
            rw [List.filter_cons]
            cases neg with
            | true =>
              rw [if_pos (by simp [hskip, hln, hf]), if_pos rfl]
              simp [Nat.add_comm]
            | false =>
              rw [if_neg (by simp [hskip, hln, hf]), if_neg (by simp)]
              simp
          rw [cleanLoop, if_neg (by simp [hskip]), if_neg (by omega), hp]
          dsimp only
          rw [hf]
          dsimp only
          rw [ih hls, hk, hplen, hnlen]
          congr 1
          · simp [hrf]
          · congr 1
            congr 1
            · simp only [List.length_cons]
              omega
            · congr 1
              · split_ifs <;> omega
              · split_ifs <;> omega

theorem cleanLoop_rows_len :
    ∀ (lines : List (List Char)) (count positive errors : Nat)
      (rows rows' : List (List Char)) (c' p' e' : Nat),
      cleanLoop lines count positive errors rows = ⟨rows', .ok (c', p', e')⟩ →
      rows'.length + count = rows.length + c' := by
  intro lines
  induction lines with
  | nil =>
    intro c p e rows rows' c' p' e' h
    rw [cleanLoop] at h
    simp only [CleanResult.mk.injEq, Except.ok.injEq, Prod.mk.injEq] at h
    obtain ⟨h1, h2, _, _⟩ := h
    subst h1 h2
    omega
  | cons l ls ih =>
    intro c p e rows rows' c' p' e' h
    rw [cleanLoop] at h
    cases hskip : lineIsSkipped l with
    | true =>
      rw [if_pos hskip] at h
      exact ih _ _ _ _ _ _ _ _ h
    | false =>
      rw [if_neg (by simp [hskip])] at h
      by_cases h3 : countSemis l < 3
      · rw [if_pos h3] at h
        simp only [CleanResult.mk.injEq] at h
        exact absurd h.2 (by simp)
      · rw [if_neg h3] at h
        cases hp : parseFields l with
        | none =>
          rw [hp] at h
          dsimp only at h
          simp only [CleanResult.mk.injEq] at h
          exact absurd h.2 (by simp)
        | some quad =>
          obtain ⟨id, descr, score, eff⟩ := quad
          rw [hp] at h
          dsimp only at h
          cases hf : pyFloatIsNeg score with
          | none =>
            rw [hf] at h
            dsimp only at h
            simp only [CleanResult.mk.injEq] at h
            exact absurd h.2 (by simp)
          | some neg =>
            rw [hf] at h
            dsimp only at h
            have := ih _ _ _ _ _ _ _ _ h
            simp only [List.length_append, List.length_cons, List.length_nil] at this
            omega

theorem cleanLoop_le :
    ∀ (lines : List (List Char)) (count positive errors : Nat)
      (rows rows' : List (List Char)) (c' p' e' : Nat),
      cleanLoop lines count positive errors rows = ⟨rows', .ok (c', p', e')⟩ →
      positive ≤ count → errors ≤ count → p' ≤ c' ∧ e' ≤ c' := by
  intro lines
  induction lines with
  | nil =>
    intro c p e rows rows' c' p' e' h hp he
    rw [cleanLoop] at h
    simp only [CleanResult.mk.injEq, Except.ok.injEq, Prod.mk.injEq] at h
    obtain ⟨_, h2, h3, h4⟩ := h
    omega
  | cons l ls ih =>
    intro c p e rows rows' c' p' e' h hpb heb
    rw [cleanLoop] at h
    cases hskip : lineIsSkipped l with
    | true =>
      rw [if_pos hskip] at h
      exact ih _ _ _ _ _ _ _ _ h hpb heb
    | false =>
      rw [if_neg (by simp [hskip])] at h
      by_cases h3 : countSemis l < 3
      · rw [if_pos h3] at h
        simp only [CleanResult.mk.injEq] at h
        exact absurd h.2 (by simp)
      · rw [if_neg h3] at h
        cases hp : parseFields l with
        | none =>
          rw [hp] at h
          dsimp only at h
          simp only [CleanResult.mk.injEq] at h
          exact absurd h.2 (by simp)
        | some quad =>
          obtain ⟨id, descr, score, eff⟩ := quad
          rw [hp] at h
          dsimp only at h
          cases hf : pyFloatIsNeg score with
          | none =>
            rw [hf] at h
            dsimp only at h
            simp only [CleanResult.mk.injEq] at h
            exact absurd h.2 (by simp)
          | some neg =>
            rw [hf] at h
            dsimp only at h
            refine ih _ _ _ _ _ _ _ _ h ?_ ?_
            · split_ifs <;> omega
            · split_ifs <;> omega

/-- C1: for every raw line with at least 3 semicolons, the normalizer's
right-anchored `rsplit(";", 2)` splits at the LAST two semicolons — so the
score and classification components contain no semicolon, while the leading
id+description component may; concretely, `"id; part1;part2; 0.9; false"`
yields exactly the four trimmed fields ("id", "part1;part2", "0.9", "false"),
the semicolon inside the description preserved. -/
theorem right_anchored_split_spec (l : List Char) (h3 : 3 ≤ countSemis l) :
    (∃ id_descr score effective,
        rsplit2 ';' (rstripCRLF l) = some (id_descr, score, effective) ∧
        rstripCRLF l = id_descr ++ ';' :: score ++ ';' :: effective ∧
        score.count ';' = 0 ∧ effective.count ';' = 0) ∧
    parseFields "id; part1;part2; 0.9; false".toList =
      some ("id".toList, "part1;part2".toList, " 0.9".toList, " false".toList) ∧
    clean_tabular ["id; part1;part2; 0.9; false".toList] =
      ⟨["id\tpart1;part2\t0.9\tfalse\n".toList], .ok (1, 0, 0)⟩ := by
  refine ⟨?_, rfl, rfl⟩
  have h3' : 3 ≤ (rstripCRLF l).count ';' := by
    rw [rstripCRLF_count]; exact h3
  obtain ⟨a1, e, h1⟩ := splitLast_isSome ';' (rstripCRLF l) (by omega)
  obtain ⟨hdec1, hcnt1⟩ := splitLast_sound ';' _ _ _ h1
  have hcc := congrArg (fun t => t.count ';') hdec1
  simp only [List.count_append, List.count_cons_self] at hcc
  obtain ⟨a2, s, h2⟩ := splitLast_isSome ';' a1 (by omega)
  obtain ⟨hdec2, hcnt2⟩ := splitLast_sound ';' _ _ _ h2
  refine ⟨a2, s, e, ?_, ?_, hcnt2, hcnt1⟩
  · simp [rsplit2, h1, h2]
  · simp [hdec1, hdec2]

/-- Witness for C1 at the concrete line "a;b;c;d" (three semicolons). -/
theorem right_anchored_split_spec_witness :
    (∃ id_descr score effective,
        rsplit2 ';' (rstripCRLF "a;b;c;d".toList) = some (id_descr, score, effective) ∧
        rstripCRLF "a;b;c;d".toList = id_descr ++ ';' :: score ++ ';' :: effective ∧
        score.count ';' = 0 ∧ effective.count ';' = 0) ∧
    parseFields "id; part1;part2; 0.9; false".toList =
      some ("id".toList, "part1;part2".toList, " 0.9".toList, " false".toList) ∧
    clean_tabular ["id; part1;part2; 0.9; false".toList] =
      ⟨["id\tpart1;part2\t0.9\tfalse\n".toList], .ok (1, 0, 0)⟩ :=
  right_anchored_split_spec "a;b;c;d".toList (by decide)

/-- C2: on a stream where every line is either skippable (empty, a "#"
comment, or the column-header line) or well formed, `clean_tabular` writes
exactly one tab-separated row per non-skipped line and returns count = number
of non-skipped lines, positive = number of records whose classification field
(the component after the last semicolon, exactly as the loop variable
`effective` holds it) case-insensitively equals "true", and errors = number of
records whose score is negative. -/
theorem clean_tabular_accounting (lines : List (List Char))
    (h : ∀ l ∈ lines, lineIsSkipped l = true ∨ wellFormed l = true) :
    clean_tabular lines =
      ⟨(keptOf lines).map rowFor,
       .ok ((keptOf lines).length, (positivesOf lines).length,
            (negativesOf lines).length)⟩ := by
  unfold clean_tabular
  rw [cleanLoop_clean lines h 0 0 0 []]
  simp

/-- Witness for C2 on a five-line stream: comment, blank, header, a positive
record, and a negative-score record. -/
theorem clean_tabular_accounting_witness :
    clean_tabular ["# comment".toList, "".toList,
        "Id; Description; Score; Effective".toList,
        "id; d; 0.5;true".toList, "id2; d2; -2; false".toList] =
      ⟨(keptOf ["# comment".toList, "".toList,
          "Id; Description; Score; Effective".toList,
          "id; d; 0.5;true".toList, "id2; d2; -2; false".toList]).map rowFor,
       .ok ((keptOf ["# comment".toList, "".toList,
              "Id; Description; Score; Effective".toList,
              "id; d; 0.5;true".toList, "id2; d2; -2; false".toList]).length,
            (positivesOf ["# comment".toList, "".toList,
              "Id; Description; Score; Effective".toList,
              "id; d; 0.5;true".toList, "id2; d2; -2; false".toList]).length,
            (negativesOf ["# comment".toList, "".toList,
              "Id; Description; Score; Effective".toList,
              "id; d; 0.5;true".toList, "id2; d2; -2; false".toList]).length)⟩ :=
  clean_tabular_accounting
    ["# comment".toList, "".toList, "Id; Description; Score; Effective".toList,
     "id; d; 0.5;true".toList, "id2; d2; -2; false".toList] (by decide)

/-- C3: if `clean_tabular` returned with count > 0 and count = errors, the run
takes the `sys.exit("All your sequences gave an error code")` branch — a
nonzero exit status with an explanatory message — while the output file
already holds the header plus all count rows and is left in place. -/
theorem all_errors_exit_nonzero (lines rows : List (List Char)) (c p e : Nat)
    (h : clean_tabular lines = ⟨rows, .ok (c, p, e)⟩)
    (hc : 0 < c) (hce : c = e) :
    processRaw lines = ⟨headerRow :: rows, .allErrors⟩ ∧
    runExitCode (processRaw lines).exit = 1 ∧
    rows.length = c := by
  have hlen : rows.length = c := by
    have h' : cleanLoop lines 0 0 0 [] = ⟨rows, .ok (c, p, e)⟩ := h
    have := cleanLoop_rows_len lines 0 0 0 [] rows c p e h'
    simp at this
    omega
  have hpr : processRaw lines = ⟨headerRow :: rows, .allErrors⟩ := by
    unfold processRaw
    rw [h]
    dsimp only
    rw [if_pos (⟨by omega, hce⟩ : c ≠ 0 ∧ c = e)]
  refine ⟨hpr, ?_, hlen⟩
  rw [hpr]
  rfl

/-- Witness for C3: a single record with a negative score is both the whole
count and the whole error count, and the run exits nonzero with the file
written. -/
theorem all_errors_exit_nonzero_witness :
    processRaw ["id; descr; -1;x".toList] =
      ⟨headerRow :: ["id\tdescr\t-1\tx\n".toList], .allErrors⟩ ∧
    runExitCode (processRaw ["id; descr; -1;x".toList]).exit = 1 ∧
    (["id\tdescr\t-1\tx\n".toList] : List (List Char)).length = 1 :=
  all_errors_exit_nonzero ["id; descr; -1;x".toList]
    ["id\tdescr\t-1\tx\n".toList] 1 0 1 rfl (by decide) rfl

/-- C4: a non-skipped line with fewer than 3 semicolons trips the structural
`assert`, which terminates the run with a nonzero status and a diagnostic
carrying the offending line; no output row is written for it (the rows
already written are left untouched, whatever the loop state). -/
theorem assert_semicolons_fatal (line : List Char) (suf : List (List Char))
    (hns : lineIsSkipped line = false) (h3 : countSemis line < 3) :
    (∀ count positive errors rows,
        cleanLoop (line :: suf) count positive errors rows =
          ⟨rows, .error (.assertFail line)⟩) ∧
    clean_tabular (line :: suf) = ⟨[], .error (.assertFail line)⟩ ∧
    (processRaw (line :: suf)).exit = .cleanFailed (.assertFail line) ∧
    runExitCode (processRaw (line :: suf)).exit = 1 := by
  have hstep : ∀ count positive errors rows,
      cleanLoop (line :: suf) count positive errors rows =
        ⟨rows, .error (.assertFail line)⟩ := by
    intro c p e rows
    rw [cleanLoop, if_neg (by simp [hns]), if_pos h3]
  have hct : clean_tabular (line :: suf) = ⟨[], .error (.assertFail line)⟩ :=
    hstep 0 0 0 []
  have hpr : (processRaw (line :: suf)).exit = .cleanFailed (.assertFail line) := by
    unfold processRaw
    rw [hct]
  exact ⟨hstep, hct, hpr, by rw [hpr]; rfl⟩

/-- Witness for C4 at the two-semicolon line "id; descr". -/
theorem assert_semicolons_fatal_witness :
    (∀ count positive errors rows,
        cleanLoop ("id; descr".toList :: []) count positive errors rows =
          ⟨rows, .error (.assertFail "id; descr".toList)⟩) ∧
    clean_tabular ("id; descr".toList :: []) =
      ⟨[], .error (.assertFail "id; descr".toList)⟩ ∧
    (processRaw ("id; descr".toList :: [])).exit =
      .cleanFailed (.assertFail "id; descr".toList) ∧
    runExitCode (processRaw ("id; descr".toList :: [])).exit = 1 :=
  assert_semicolons_fatal "id; descr".toList [] (by decide) (by decide)

/-- C5: the threshold check accepts exactly "selective", "sensitive", or a
value starting with "cutoff="; any other value (e.g. "cutoff" without "=", or
"aggressive") makes the run exit nonzero at the threshold check, before the
external tool could ever be reached. -/
theorem threshold_gate (t3dir : List Char) (env : Env)
    (prog model t fasta tab : List Char)
    (hv : hasVersionFlag [prog, model, t, fasta, tab] = false)
    (hfa : env.isFile fasta = true) :
    (mainPre t3dir env [prog, model, t, fasta, tab] = .badThreshold t ↔
      ¬(t = "selective".toList ∨ t = "sensitive".toList ∨
          "cutoff=".toList.isPrefixOf t = true)) ∧
    (threshold_ok t = false →
      preExitCode (mainPre t3dir env [prog, model, t, fasta, tab]) = some 1 ∧
      ∀ m2 t2 f2 o2,
        mainPre t3dir env [prog, model, t, fasta, tab] ≠ .runTool m2 t2 f2 o2) ∧
    threshold_ok "cutoff=0.5".toList = true ∧
    threshold_ok "cutoff".toList = false ∧
    threshold_ok "aggressive".toList = false := by
  have hto : threshold_ok t = true ↔
      (t = "selective".toList ∨ t = "sensitive".toList ∨
        "cutoff=".toList.isPrefixOf t = true) := by
    unfold threshold_ok
    simp only [Bool.or_eq_true, beq_iff_eq, or_assoc]
  cases hok : threshold_ok t with
  | false =>
    have hdisj : ¬(t = "selective".toList ∨ t = "sensitive".toList ∨
        "cutoff=".toList.isPrefixOf t = true) := by
      intro hd
      have hcontra := hto.mpr hd
      rw [hok] at hcontra
      simp at hcontra
    have hm : mainPre t3dir env [prog, model, t, fasta, tab] = .badThreshold t := by
      unfold mainPre
      rw [if_neg (by simp [hv]), if_neg (by simp)]
      dsimp only
      rw [if_neg (by simp [hfa]), if_pos (by simp [hok])]
    refine ⟨iff_of_true hm hdisj, ?_, by decide, by decide, by decide⟩
    intro _
    refine ⟨by rw [hm]; rfl, ?_⟩
    intro m2 t2 f2 o2
    rw [hm]
    simp
  | true =>
    have hm : mainPre t3dir env [prog, model, t, fasta, tab] ≠ .badThreshold t := by
      unfold mainPre
      rw [if_neg (by simp [hv]), if_neg (by simp)]
      dsimp only
      rw [if_neg (by simp [hfa]), if_neg (by simp [hok])]
      split_ifs <;> simp
    refine ⟨iff_of_false hm (not_not_intro (hto.mp hok)), ?_,
      by decide, by decide, by decide⟩
    intro hfalse
    exact absurd hfalse (by decide)

/-- Witness for C5 with the rejected threshold "aggressive" under a
filesystem oracle where every path exists. -/
theorem threshold_gate_witness :
    (mainPre "/opt/EffectiveT3/".toList ⟨fun _ => true, fun _ => true⟩
        ["effectiveT3.py".toList, "m".toList, "aggressive".toList,
         "in.fasta".toList, "out.tab".toList] = .badThreshold "aggressive".toList ↔
      ¬("aggressive".toList = "selective".toList ∨
        "aggressive".toList = "sensitive".toList ∨
        "cutoff=".toList.isPrefixOf "aggressive".toList = true)) ∧
    (threshold_ok "aggressive".toList = false →
      preExitCode (mainPre "/opt/EffectiveT3/".toList ⟨fun _ => true, fun _ => true⟩
        ["effectiveT3.py".toList, "m".toList, "aggressive".toList,
         "in.fasta".toList, "out.tab".toList]) = some 1 ∧
      ∀ m2 t2 f2 o2,
        mainPre "/opt/EffectiveT3/".toList ⟨fun _ => true, fun _ => true⟩
          ["effectiveT3.py".toList, "m".toList, "aggressive".toList,
           "in.fasta".toList, "out.tab".toList] ≠ .runTool m2 t2 f2 o2) ∧
    threshold_ok "cutoff=0.5".toList = true ∧
    threshold_ok "cutoff".toList = false ∧
    threshold_ok "aggressive".toList = false :=
  threshold_gate "/opt/EffectiveT3/".toList ⟨fun _ => true, fun _ => true⟩
    "effectiveT3.py".toList "m".toList "aggressive".toList "in.fasta".toList
    "out.tab".toList (by decide) rfl

/-- C6 (code-bug evidence): the raw line "id; descr; 1.5; true" does produce
exactly the row "id\tdescr\t1.5\ttrue\n", with count 1 and errors 0, but it
contributes 0 — not the claimed 1 — to the positive count: source line 67
compares the UNTRIMMED classification field " true" (leading space intact)
against "true", so the record whose trimmed classification reads "true" in the
written file is nevertheless not counted as positive. -/
theorem positive_count_misses_spaced_true :
    clean_tabular ["id; descr; 1.5; true".toList] =
      ⟨["id\tdescr\t1.5\ttrue\n".toList], .ok (1, 0, 0)⟩ ∧
    parseFields "id; descr; 1.5; true".toList =
      some ("id".toList, "descr".toList, " 1.5".toList, " true".toList) ∧
    lowerList " true".toList ≠ "true".toList ∧
    pyStrip " true".toList = "true".toList :=
  ⟨rfl, rfl, by decide, by decide⟩

/-- C7: when the combined id+description field contains no "; " but ends with
";", the description is taken to be empty and the trailing ";" is stripped
from the id; concretely "myid;; 0.5; false" yields the fields
("myid", "", "0.5", "false"). -/
theorem empty_description_split (id_descr : List Char)
    (hno : containsSub "; ".toList id_descr = false)
    (hend : id_descr.getLast? = some ';') :
    split_id_descr id_descr = some (id_descr.dropLast, []) ∧
    parseFields "myid;; 0.5; false".toList =
      some ("myid".toList, "".toList, " 0.5".toList, " false".toList) ∧
    clean_tabular ["myid;; 0.5; false".toList] =
      ⟨["myid\t\t0.5\tfalse\n".toList], .ok (1, 0, 0)⟩ := by
  refine ⟨?_, rfl, rfl⟩
  unfold split_id_descr
  rw [if_pos (by simp [hend]; exact hno)]

/-- Witness for C7 at the combined field "myid;". -/
theorem empty_description_split_witness :
    split_id_descr "myid;".toList = some ("myid;".toList.dropLast, []) ∧
    parseFields "myid;; 0.5; false".toList =
      some ("myid".toList, "".toList, " 0.5".toList, " false".toList) ∧
    clean_tabular ["myid;; 0.5; false".toList] =
      ⟨["myid\t\t0.5\tfalse\n".toList], .ok (1, 0, 0)⟩ :=
  empty_description_split "myid;".toList (by decide) (by decide)

/-- C8: if "-v" or "--version" occurs anywhere among the command-line
arguments, the script prints the fixed version string and exits 0, whatever
the other arguments and the filesystem state — the check precedes the arity,
threshold and filesystem validations. -/
theorem version_flag_short_circuit (t3dir : List Char) (env : Env)
    (argv : List (List Char))
    (h : "-v".toList ∈ argv ∨ "--version".toList ∈ argv) :
    mainPre t3dir env argv = .versionExit ∧
    preExitCode (mainPre t3dir env argv) = some 0 ∧
    preStdout (mainPre t3dir env argv) = some versionString := by
  have hv : hasVersionFlag argv = true := by
    unfold hasVersionFlag
    rcases h with h | h
    · have h1 : argv.contains "-v".toList = true := List.elem_eq_true_of_mem h
      rw [h1]
      rfl
    · have h1 : argv.contains "--version".toList = true := List.elem_eq_true_of_mem h
      rw [h1]
      simp
  have hm : mainPre t3dir env argv = .versionExit := by
    unfold mainPre
    rw [if_pos hv]
  exact ⟨hm, by rw [hm]; rfl, by rw [hm]; rfl⟩

/-- Witness for C8: invoking with the single argument "-v" under a filesystem
oracle where nothing exists. -/
theorem version_flag_short_circuit_witness :
    mainPre "/opt/EffectiveT3/".toList ⟨fun _ => false, fun _ => false⟩
        ["-v".toList] = .versionExit ∧
    preExitCode (mainPre "/opt/EffectiveT3/".toList ⟨fun _ => false, fun _ => false⟩
        ["-v".toList]) = some 0 ∧
    preStdout (mainPre "/opt/EffectiveT3/".toList ⟨fun _ => false, fun _ => false⟩
        ["-v".toList]) = some versionString :=
  version_flag_short_circuit "/opt/EffectiveT3/".toList
    ⟨fun _ => false, fun _ => false⟩ ["-v".toList] (Or.inl (by decide))

/-- C9: for a non-skipped line with at least 3 semicolons whose fields split
successfully but whose score `float()` rejects, the loop aborts with the
uncaught ValueError from the score conversion — a different abort than the
`sys.exit` of the parse handler — and only after the malformed row has already
been written to the output file. -/
theorem score_value_error_uncaught (line id descr score effective : List Char)
    (suf : List (List Char))
    (hns : lineIsSkipped line = false)
    (h3 : 3 ≤ countSemis line)
    (hp : parseFields line = some (id, descr, score, effective))
    (hf : pyFloatIsNeg score = none) :
    (∀ count positive errors rows,
        cleanLoop (line :: suf) count positive errors rows =
          ⟨rows ++ [rowOf id descr score effective], .error (.floatError score)⟩) ∧
    clean_tabular (line :: suf) =
      ⟨[rowOf id descr score effective], .error (.floatError score)⟩ ∧
    (∀ l2, CleanError.floatError score ≠ CleanError.parseExit l2) ∧
    (processRaw (line :: suf)).fileLines =
      [headerRow, rowOf id descr score effective] ∧
    runExitCode (processRaw (line :: suf)).exit = 1 := by
  have hstep : ∀ count positive errors rows,
      cleanLoop (line :: suf) count positive errors rows =
        ⟨rows ++ [rowOf id descr score effective], .error (.floatError score)⟩ := by
    intro c p e rows
    rw [cleanLoop, if_neg (by simp [hns]), if_neg (by omega), hp]
    dsimp only
    rw [hf]
  have hct : clean_tabular (line :: suf) =
      ⟨[rowOf id descr score effective], .error (.floatError score)⟩ := by
    have h0 := hstep 0 0 0 []
    rw [List.nil_append] at h0
    exact h0
  have hpr : processRaw (line :: suf) =
      ⟨[headerRow, rowOf id descr score effective],
       .cleanFailed (.floatError score)⟩ := by
    unfold processRaw
    rw [hct]
  refine ⟨hstep, hct, ?_, by rw [hpr], by rw [hpr]; rfl⟩
  intro l2 hcontra
  cases hcontra

/-- Witness for C9 at the line "id; descr; abc; true" (unparseable score). -/
theorem score_value_error_uncaught_witness :
    (∀ count positive errors rows,
        cleanLoop ("id; descr; abc; true".toList :: []) count positive errors rows =
          ⟨rows ++ [rowOf "id".toList "descr".toList " abc".toList " true".toList],
           .error (.floatError " abc".toList)⟩) ∧
    clean_tabular ("id; descr; abc; true".toList :: []) =
      ⟨[rowOf "id".toList "descr".toList " abc".toList " true".toList],
       .error (.floatError " abc".toList)⟩ ∧
    (∀ l2, CleanError.floatError " abc".toList ≠ CleanError.parseExit l2) ∧
    (processRaw ("id; descr; abc; true".toList :: [])).fileLines =
      [headerRow, rowOf "id".toList "descr".toList " abc".toList " true".toList] ∧
    runExitCode (processRaw ("id; descr; abc; true".toList :: [])).exit = 1 :=
  score_value_error_uncaught "id; descr; abc; true".toList "id".toList
    "descr".toList " abc".toList " true".toList [] (by decide) (by decide) rfl rfl

/-- C10: whenever `clean_tabular` returns normally, positive ≤ count and
errors ≤ count; and the two categories overlap — the single record
"id; descr; -1.5;True" has a negative score and a classification that
case-insensitively equals "true", and it increments both counters:
the result is (count, positive, errors) = (1, 1, 1). -/
theorem counts_bounded_and_overlap :
    (∀ (lines rows : List (List Char)) (c p e : Nat),
        clean_tabular lines = ⟨rows, .ok (c, p, e)⟩ → p ≤ c ∧ e ≤ c) ∧
    clean_tabular ["id; descr; -1.5;True".toList] =
      ⟨["id\tdescr\t-1.5\tTrue\n".toList], .ok (1, 1, 1)⟩ := by
  constructor
  · intro lines rows c p e h
    exact cleanLoop_le lines 0 0 0 [] rows c p e h (Nat.le_refl 0) (Nat.le_refl 0)
  · rfl

/-- Witness for C10's bounded-counts conjunct at the overlap record itself. -/
theorem counts_bounded_and_overlap_witness : 1 ≤ 1 ∧ 1 ≤ 1 :=
  counts_bounded_and_overlap.1 ["id; descr; -1.5;True".toList]
    ["id\tdescr\t-1.5\tTrue\n".toList] 1 1 1 rfl
